import Mathlib

/-!
# Verification of the ollama-task-master response pipeline

A shallow embedding of the response-ingestion pipeline of the
`ollama-task-master` repository (file `ai-services.js`) and of the
dependency-graph `addDependency` operation (modelled from the spec, since
`dependency-manager.js` is not part of the provided sources).

Strings are modelled as `List Char`; the JavaScript runtime's `JSON.parse`
is modelled by a recursive-descent parser over the JSON grammar with two
documented restrictions: numeric literals are restricted to (optionally
signed) integer literals, and `\uXXXX` escapes are accepted only for
non-surrogate scalar values.  The records this repository parses use only
integer numbers and plain strings, so the restriction does not affect any
input considered in the theorems below.
-/

set_option linter.unusedVariables false

namespace TaskMaster

/-- The single-quote character, written via its code point. -/
def squote : Char := Char.ofNat 39

/-- JavaScript whitespace characters relevant to `String.prototype.trim`
and `parseInt` (the common ASCII subset). -/
def isWsJs (c : Char) : Bool :=
  [' ', '\t', '\n', '\r', Char.ofNat 11, Char.ofNat 12].contains c

/-- JSON whitespace as accepted by `JSON.parse`. -/
def isWsJson (c : Char) : Bool :=
  [' ', '\t', '\n', '\r'].contains c

/-- Drop leading JSON whitespace. -/
def skipWs : List Char → List Char
  | [] => []
  | c :: r => if isWsJson c then skipWs r else c :: r

/-- Drop leading JavaScript whitespace (for `parseInt`). -/
def skipWsJs : List Char → List Char
  | [] => []
  | c :: r => if isWsJs c then skipWsJs r else c :: r

/-- First index of a character, JS `String.prototype.indexOf` (with `-1`
modelled as `none`). -/
def indexOfChar (l : List Char) (c : Char) : Option Nat :=
  match l with
  | [] => none
  | x :: r => if x == c then some 0 else (indexOfChar r c).map (· + 1)

/-- Last index of a character, JS `String.prototype.lastIndexOf`. -/
def lastIndexOfChar (l : List Char) (c : Char) : Option Nat :=
  match l with
  | [] => none
  | x :: r =>
    match lastIndexOfChar r c with
    | some i => some (i + 1)
    | none => if x == c then some 0 else none

/-- JS `String.prototype.substring start end`: the slice `[start, stop)`. -/
def sliceL (l : List Char) (start stop : Nat) : List Char :=
  (l.drop start).take (stop - start)

/-- Does `needle` occur at the start of `hay`? -/
def startsWithL : List Char → List Char → Bool
  | _, [] => true
  | [], _ :: _ => false
  | h :: hs, n :: ns => h == n && startsWithL hs ns

/-- JS `String.prototype.includes`. -/
def containsL : List Char → List Char → Bool
  | hay, needle =>
    startsWithL hay needle ||
      match hay with
      | [] => false
      | _ :: hs => containsL hs needle

/-- JS `String.prototype.split('\n')`. -/
def splitNl : List Char → List (List Char)
  | [] => [[]]
  | c :: r =>
    if c = '\n' then [] :: splitNl r
    else
      match splitNl r with
      | [] => [[c]]
      | h :: t => (c :: h) :: t

/-- The body obtained by terminating each delivered line with `'\n'`. -/
def nlTerm (lines : List (List Char)) : List Char :=
  (lines.map (· ++ ['\n'])).flatten

/-- JS truthiness of an optional environment variable (`undefined` and the
empty string are falsy). -/
def envTruthy : Option String → Bool
  | none => false
  | some s => !(s == "")

/-- `env.X || fallback` for string-valued environment variables. -/
def envOr (v : Option String) (dflt : String) : String :=
  match v with
  | some s => if s == "" then dflt else s
  | none => dflt

/-! ## The JSON value model (JavaScript `JSON.parse` result) -/

/-- JSON values as produced by `JSON.parse`, extended with `nan` to model
the JavaScript `NaN` produced by `parseInt` on non-numeric text (`nan` is
never produced by the parser itself). -/
inductive Json where
  | null
  | bool (b : Bool)
  | num (n : Int)
  | nan
  | str (s : String)
  | arr (elems : List Json)
  | obj (fields : List (String × Json))

mutual

/-- Structural equality test on JSON values. -/
def Json.beq : Json → Json → Bool
  | .null, .null => true
  | .bool a, .bool b => a == b
  | .num a, .num b => a == b
  | .nan, .nan => true
  | .str a, .str b => a == b
  | .arr xs, .arr ys => Json.beqL xs ys
  | .obj xs, .obj ys => Json.beqF xs ys
  | _, _ => false

/-- Structural equality test on lists of JSON values. -/
def Json.beqL : List Json → List Json → Bool
  | [], [] => true
  | x :: xs, y :: ys => Json.beq x y && Json.beqL xs ys
  | _, _ => false

/-- Structural equality test on JSON object field lists. -/
def Json.beqF : List (String × Json) → List (String × Json) → Bool
  | [], [] => true
  | (k, v) :: xs, (k', v') :: ys => k == k' && Json.beq v v' && Json.beqF xs ys
  | _, _ => false

end

instance : BEq Json := ⟨Json.beq⟩

theorem Json.beqL_eq (xs ys : List Json)
    (ih : ∀ x ∈ xs, ∀ b : Json, Json.beq x b = true → x = b)
    (h : Json.beqL xs ys = true) : xs = ys := by
  induction xs generalizing ys with
  | nil => cases ys with
    | nil => rfl
    | cons y ys => simp [Json.beqL] at h
  | cons x xs ihl =>
    cases ys with
    | nil => simp [Json.beqL] at h
    | cons y ys =>
      simp only [Json.beqL, Bool.and_eq_true] at h
      have hx := ih x (List.mem_cons_self x xs) y h.1
      have ih' : ∀ a ∈ xs, ∀ b : Json, Json.beq a b = true → a = b :=
        fun a ha => ih a (List.mem_cons_of_mem x ha)
      have hxs := ihl ys ih' h.2
      rw [hx, hxs]

theorem Json.beqF_eq (xs ys : List (String × Json))
    (ih : ∀ x ∈ xs, ∀ b : Json, Json.beq x.2 b = true → x.2 = b)
    (h : Json.beqF xs ys = true) : xs = ys := by
  induction xs generalizing ys with
  | nil => cases ys with
    | nil => rfl
    | cons y ys => simp [Json.beqF] at h
  | cons x xs ihl =>
    cases ys with
    | nil => rcases x with ⟨k, v⟩; simp [Json.beqF] at h
    | cons y ys =>
      rcases x with ⟨k, v⟩; rcases y with ⟨k', v'⟩
      simp only [Json.beqF, Bool.and_eq_true, beq_iff_eq] at h
      have hx := ih ⟨k, v⟩ (List.mem_cons_self _ xs) v' h.1.2
      have ih' : ∀ a ∈ xs, ∀ b : Json, Json.beq a.2 b = true → a.2 = b :=
        fun a ha => ih a (List.mem_cons_of_mem _ ha)
      have hxs := ihl ys ih' h.2
      simp only at hx
      rw [h.1.1, hx, hxs]

theorem Json.eq_of_beq_aux : ∀ (n : Nat) (a b : Json), sizeOf a ≤ n →
    Json.beq a b = true → a = b := by
  intro n
  induction n with
  | zero => intro a b hs; cases a <;> simp at hs
  | succ n ihn =>
    intro a b hs h
    cases a <;> cases b <;> simp_all [Json.beq]
    case arr.arr xs ys =>
      refine Json.beqL_eq xs ys (fun x hx c hc => ihn x c ?_ hc) h
      have h2 := List.sizeOf_lt_of_mem hx
      omega
    case obj.obj xs ys =>
      refine Json.beqF_eq xs ys (fun x hx c hc => ihn x.2 c ?_ hc) h
      have h2 := List.sizeOf_lt_of_mem hx
      rcases x with ⟨k, v⟩
      simp at h2 ⊢
      omega

theorem Json.beqL_refl (xs : List Json) (ih : ∀ x ∈ xs, Json.beq x x = true) :
    Json.beqL xs xs = true := by
  induction xs with
  | nil => rfl
  | cons x xs ihl =>
    have ih' : ∀ a ∈ xs, Json.beq a a = true :=
      fun a ha => ih a (List.mem_cons_of_mem x ha)
    simp only [Json.beqL, Bool.and_eq_true]
    exact ⟨ih x (List.mem_cons_self x xs), ihl ih'⟩

theorem Json.beqF_refl (xs : List (String × Json))
    (ih : ∀ x ∈ xs, Json.beq x.2 x.2 = true) : Json.beqF xs xs = true := by
  induction xs with
  | nil => rfl
  | cons x xs ihl =>
    have ih' : ∀ a ∈ xs, Json.beq a.2 a.2 = true :=
      fun a ha => ih a (List.mem_cons_of_mem x ha)
    have hx := ih x (List.mem_cons_self x xs)
    rcases x with ⟨k, v⟩
    simp only [Json.beqF, Bool.and_eq_true, beq_self_eq_true, true_and]
    exact ⟨hx, ihl ih'⟩

theorem Json.beq_refl_aux : ∀ (n : Nat) (a : Json), sizeOf a ≤ n →
    Json.beq a a = true := by
  intro n
  induction n with
  | zero => intro a hs; cases a <;> simp at hs
  | succ n ihn =>
    intro a hs
    cases a <;> simp_all [Json.beq]
    case arr xs =>
      refine Json.beqL_refl xs (fun x hx => ihn x ?_)
      have h2 := List.sizeOf_lt_of_mem hx
      omega
    case obj xs =>
      refine Json.beqF_refl xs (fun x hx => ihn x.2 ?_)
      have h2 := List.sizeOf_lt_of_mem hx
      rcases x with ⟨k, v⟩
      simp at h2 ⊢
      omega

instance : LawfulBEq Json where
  eq_of_beq h := Json.eq_of_beq_aux _ _ _ (Nat.le_refl _) h
  rfl := Json.beq_refl_aux _ _ (Nat.le_refl _)

instance : DecidableEq Json := fun a b =>
  decidable_of_iff ((a == b) = true) beq_iff_eq

/-- Is the value a (non-array) object? `normalizeOne` below needs this to
model strict-mode property assignment. -/
def Json.isObj : Json → Bool
  | .obj _ => true
  | _ => false

/-- Look a key up in an object's field list (first occurrence; the parser
deduplicates keys so at most one occurrence exists). -/
def lookupField : List (String × Json) → String → Option Json
  | [], _ => none
  | (k', v) :: rest, k => if k' == k then some v else lookupField rest k

/-- Insert or overwrite a key, keeping the first-seen position, matching
JavaScript property assignment. -/
def objUpsert : List (String × Json) → String → Json → List (String × Json)
  | [], k, v => [(k, v)]
  | (k', v') :: rest, k, v =>
    if k' == k then (k', v) :: rest else (k', v') :: objUpsert rest k v

/-- JS property read `o.k` (reads on non-objects yield `undefined`). -/
def getField : Json → String → Option Json
  | .obj fs, k => lookupField fs k
  | _, _ => none

/-- JS property write `o.k = v` on a plain object (the callers below guard
with `isObj`; on other values the model leaves the value unchanged). -/
def setField : Json → String → Json → Json
  | .obj fs, k, v => .obj (objUpsert fs k v)
  | j, _, _ => j

/-! ## JSON parsing (`JSON.parse`) -/

/-- Hexadecimal digit value. -/
def hexVal (c : Char) : Option Nat :=
  if '0' ≤ c ∧ c ≤ '9' then some (c.toNat - '0'.toNat)
  else if 'a' ≤ c ∧ c ≤ 'f' then some (c.toNat - 'a'.toNat + 10)
  else if 'A' ≤ c ∧ c ≤ 'F' then some (c.toNat - 'A'.toNat + 10)
  else none

/-- The character named by a single-character JSON escape. -/
def escMap : Char → Option Char
  | 'n' => some '\n'
  | 't' => some '\t'
  | 'r' => some '\r'
  | 'b' => some (Char.ofNat 8)
  | 'f' => some (Char.ofNat 12)
  | c => if c == '"' || c == '\\' || c == '/' then some c else none

/-- Parse the body of a JSON string literal (after the opening quote),
returning the decoded characters and the rest of the input. -/
def parseStrBody : List Char → Option (List Char × List Char)
  | [] => none
  | c :: r =>
    if c == '"' then some ([], r)
    else if c == '\\' then
      match r with
      | [] => none
      | e :: r2 =>
        if e == 'u' then
          match r2 with
          | a :: b :: c3 :: d :: r3 =>
            match hexVal a, hexVal b, hexVal c3, hexVal d with
            | some x1, some x2, some x3, some x4 =>
              let n := ((x1 * 16 + x2) * 16 + x3) * 16 + x4
              if n < 55296 then
                (parseStrBody r3).map (fun p => (Char.ofNat n :: p.1, p.2))
              else none
            | _, _, _, _ => none
          | _ => none
        else
          match escMap e with
          | some d => (parseStrBody r2).map (fun p => (d :: p.1, p.2))
          | none => none
    else if c.toNat < 32 then none
    else (parseStrBody r).map (fun p => (c :: p.1, p.2))

/-- Leading run of decimal digits. -/
def digitsPrefix : List Char → (List Char × List Char)
  | [] => ([], [])
  | c :: r =>
    if c.isDigit then
      let (ds, rest) := digitsPrefix r
      (c :: ds, rest)
    else ([], c :: r)

/-- Numeric value of a digit string. -/
def natOfDigits : List Char → Nat
  | [] => 0
  | d :: ds => natOfDigitsAux (d.toNat - '0'.toNat) ds
where
  natOfDigitsAux (acc : Nat) : List Char → Nat
    | [] => acc
    | d :: ds => natOfDigitsAux (acc * 10 + (d.toNat - '0'.toNat)) ds

/-- Parse a JSON number (integer literals only; see the module comment). -/
def parseNum (s : List Char) : Option (Json × List Char) :=
  let (neg, s1) :=
    match s with
    | '-' :: r => (true, r)
    | _ => (false, s)
  match h : digitsPrefix s1 with
  | ([], _) => none
  | (d :: ds, rest) =>
    if d = '0' ∧ ds ≠ [] then none
    else
      match rest with
      | '.' :: _ => none
      | 'e' :: _ => none
      | 'E' :: _ => none
      | _ =>
        let v : Int := natOfDigits (d :: ds)
        some (.num (if neg then -v else v), rest)

mutual

/-- Recursive-descent JSON value parser, modelling `JSON.parse`. -/
def parseVal : Nat → List Char → Option (Json × List Char)
  | 0, _ => none
  | fuel + 1, s =>
    match skipWs s with
    | 'n' :: 'u' :: 'l' :: 'l' :: r => some (.null, r)
    | 't' :: 'r' :: 'u' :: 'e' :: r => some (.bool true, r)
    | 'f' :: 'a' :: 'l' :: 's' :: 'e' :: r => some (.bool false, r)
    | '"' :: r => (parseStrBody r).map (fun p => (.str (String.mk p.1), p.2))
    | '[' :: r =>
      (match skipWs r with
       | ']' :: r2 => some (.arr [], r2)
       | r2 => (parseElems fuel r2).map (fun p => (.arr p.1, p.2)))
    | '{' :: r =>
      (match skipWs r with
       | '}' :: r2 => some (.obj [], r2)
       | r2 =>
         (parseMembers fuel r2).map
           (fun p => (.obj (p.1.foldl (fun acc kv => objUpsert acc kv.1 kv.2) []), p.2)))
    | c :: r => if c == '-' || c.isDigit then parseNum (c :: r) else none
    | [] => none

/-- Comma-separated JSON array elements followed by `']'`. -/
def parseElems : Nat → List Char → Option (List Json × List Char)
  | 0, _ => none
  | fuel + 1, s =>
    match parseVal fuel s with
    | none => none
    | some (v, r) =>
      match skipWs r with
      | ',' :: r2 =>
        (match parseElems fuel r2 with
         | some (vs, r3) => some (v :: vs, r3)
         | none => none)
      | ']' :: r2 => some ([v], r2)
      | _ => none

/-- Comma-separated JSON object members followed by `'}'`. -/
def parseMembers : Nat → List Char → Option (List (String × Json) × List Char)
  | 0, _ => none
  | fuel + 1, s =>
    match skipWs s with
    | '"' :: r =>
      (match parseStrBody r with
       | none => none
       | some (k, r2) =>
         match skipWs r2 with
         | ':' :: r3 =>
           (match parseVal fuel r3 with
            | none => none
            | some (v, r4) =>
              match skipWs r4 with
              | ',' :: r5 =>
                (match parseMembers fuel r5 with
                 | some (ms, r6) => some ((String.mk k, v) :: ms, r6)
                 | none => none)
              | '}' :: r5 => some ([(String.mk k, v)], r5)
              | _ => none)
         | _ => none)
    | _ => none

end

/-- `JSON.parse` on a whole text: the parsed value when the text is a
single JSON value with only trailing whitespace, `none` when parsing
throws. -/
def jsonParse (l : List Char) : Option Json :=
  match parseVal (2 * l.length + 2) l with
  | some (v, rest) => if (skipWs rest).isEmpty then some v else none
  | none => none

/-! ## Response Normalizer (`processOllamaResponse`)

`processOllamaResponse` applies three global regex replacements in order:
1. `text.replace(/\\'/g, "'")`
2. `text.replace(/\\(?=[^"ntbfr\/])/g, "\\\\")`
3. `text.replace(/(?<!\\)\\"/g, '\\"')`
Each is modelled by a left-to-right scan that mirrors the JavaScript
regex engine: a match consumes exactly the matched characters (the
lookahead in step 2 and the lookbehind in step 3 consume nothing). -/

/-- Step 1: replace every `\'` by `'`. -/
def fixQuoteEsc : List Char → List Char
  | [] => []
  | [c] => [c]
  | c :: d :: rest2 =>
    if c == '\\' && d == squote then squote :: fixQuoteEsc rest2
    else c :: fixQuoteEsc (d :: rest2)

/-- The character class `[^"ntbfr\/]` of step 2. -/
def escClass (c : Char) : Bool :=
  !(c == '"' || c == 'n' || c == 't' || c == 'b' || c == 'f' || c == 'r' || c == '/')

/-- Step 2: double every backslash whose next character is outside
`"ntbfr/` (the lookahead does not consume the next character, and a
trailing backslash has no lookahead character so it never matches). -/
def fixBackslashes : List Char → List Char
  | [] => []
  | [c] => [c]
  | c :: d :: rest2 =>
    if c == '\\' && escClass d then '\\' :: '\\' :: fixBackslashes (d :: rest2)
    else c :: fixBackslashes (d :: rest2)

/-- Step 3: replace `\"` not preceded by a backslash by `\"` (the
replacement text equals the matched text, so this step is the identity;
it is still modelled faithfully, tracking the previous character). -/
def fixQuotes : Bool → List Char → List Char
  | _, [] => []
  | _, [c] => [c]
  | p, c :: d :: rest2 =>
    if c == '\\' && d == '"' && !p then '\\' :: '"' :: fixQuotes false rest2
    else c :: fixQuotes (c == '\\') (d :: rest2)

/-- The Response Normalizer `processOllamaResponse` (the surrounding
`try/catch` is dead: none of the three replacements can throw). -/
def processOllamaResponse (text : List Char) : List Char :=
  fixQuotes false (fixBackslashes (fixQuoteEsc text))

/-! ## Stream Assembler

Both streaming paths split the received text into lines, keep the lines
whose `trim()` is truthy, `JSON.parse` each line (skipping lines that do
not parse), and append `data.message.content` whenever `data.message`
and `data.message.content` are both truthy. -/

/-- JS truthiness of a JSON value (`null`, `false`, `0`, `NaN` and the
empty string are falsy; every object and array is truthy). -/
def jsTruthy : Json → Bool
  | .null => false
  | .bool b => b
  | .num n => !(n == 0)
  | .nan => false
  | .str s => !(s == "")
  | .arr _ => true
  | .obj _ => true

mutual

/-- JS `String(...)` coercion of a JSON value (fuel-bounded so the
recursion through array elements stays structural; the wrapper below
supplies `sizeOf j` as fuel, which always exceeds the nesting depth). -/
def jsDisplayF : Nat → Json → String
  | _, .null => "null"
  | _, .bool b => if b then "true" else "false"
  | _, .num n => toString n
  | _, .nan => "NaN"
  | _, .str s => s
  | fuel + 1, .arr ds => jsDisplayListF fuel ds
  | 0, .arr _ => ""
  | _, .obj _ => "[object Object]"

/-- JS `Array.prototype.toString`: elements joined by `","`, with `null`
elements displayed as the empty string. -/
def jsDisplayListF : Nat → List Json → String
  | _, [] => ""
  | 0, _ :: _ => ""
  | fuel + 1, [d] => jsDisplayItemF fuel d
  | fuel + 1, d :: rest => jsDisplayItemF fuel d ++ "," ++ jsDisplayListF fuel rest

/-- One array element as displayed by `Array.prototype.join`. -/
def jsDisplayItemF : Nat → Json → String
  | _, .null => ""
  | 0, _ => ""
  | fuel + 1, j => jsDisplayF fuel j

end

/-- JS `String(...)` coercion of a JSON value.  The fuel bounds only the
display of arrays nested deeper than 1000 levels, far beyond anything a
task record can contain. -/
def jsDisplay (j : Json) : String := jsDisplayF 1000 j

/-- JS display of a possibly-absent property (`undefined` prints as
`undefined` inside a template literal). -/
def jsDisplayOpt : Option Json → String
  | none => "undefined"
  | some j => jsDisplay j

/-- The `message.content` fragment contributed by one parsed stream
object: `data.message && data.message.content` guards the append. -/
def contentFragment (j : Json) : List Char :=
  match getField j "message" with
  | some m =>
    if jsTruthy m then
      match getField m "content" with
      | some c => if jsTruthy c then (jsDisplay c).data else []
      | none => []
    else []
  | none => []

/-- The contribution of one received line: parse it, and take the
content fragment; lines that are not valid JSON contribute nothing. -/
def lineContent (line : List Char) : List Char :=
  match jsonParse line with
  | some j => contentFragment j
  | none => []

/-- A line is kept when `line.trim()` is truthy, i.e. the line has a
non-whitespace character. -/
def keepLine (line : List Char) : Bool :=
  line.any (fun c => !isWsJs c)

/-- Assemble one received body: split on `'\n'`, drop blank lines, and
append each line's `message.content` in order. -/
def assembleBody (body : List Char) : List Char :=
  ((splitNl body).filter keepLine).foldl (fun acc l => acc ++ lineContent l) []

/-- Assemble an incremental delivery: each chunk is processed by the same
per-chunk loop, appending to the accumulated `responseText`. -/
def assembleChunks (chunks : List (List Char)) : List Char :=
  chunks.foldl (fun acc ch => acc ++ assembleBody ch) []

/-! ## `parseInt(dep, 10)` and dependency coercion -/

/-- JS `parseInt(s, 10)`: skip leading whitespace, optional sign, then
the longest digit prefix; no digits means `NaN`. -/
def jsParseInt (l : List Char) : Option Int :=
  match skipWsJs l with
  | '-' :: r =>
    (match digitsPrefix r with
     | ([], _) => none
     | (ds, _) => some (-(natOfDigits ds : Int)))
  | '+' :: r =>
    (match digitsPrefix r with
     | ([], _) => none
     | (ds, _) => some (natOfDigits ds : Int))
  | r =>
    (match digitsPrefix r with
     | ([], _) => none
     | (ds, _) => some (natOfDigits ds : Int))

/-- `typeof dep === 'string' ? parseInt(dep, 10) : dep` for one
dependency entry. -/
def coerceDep : Json → Json
  | .str s =>
    (match jsParseInt s.data with
     | some k => .num k
     | none => .nan)
  | d => d

/-! ## Task/Subtask Normalizer and fallback ladder
(`parseSubtasksFromText`, and the tail of `handleStreamingRequest`) -/

/-- The coerced `dependencies` value of a record: present array fields
have every string entry passed through `parseInt(dep, 10)`; absent or
non-array fields become the empty array. -/
def depsCoerced (st : Json) : List Json :=
  match getField st "dependencies" with
  | some (.arr ds) => ds.map coerceDep
  | _ => []

/-- The `log('warn', ...)` text for a corrected subtask id. -/
def correctIdMsg (old : Option Json) (target : Int) : String :=
  "Correcting subtask ID from " ++ jsDisplayOpt old ++ " to " ++ toString target

/-- The `log('warn', ...)` text for a count mismatch. -/
def countMismatchMsg (expected actual : Nat) : String :=
  "Expected " ++ toString expected ++ " subtasks, but parsed " ++ toString actual

/-- Normalization of the record at position `idx` inside the `map` of
`parseSubtasksFromText`: conditional id reassignment (with a warning when
the returned id disagreed), dependency coercion, status forced to
`pending`, and `parentTaskId` stamped.  Returns the normalized record and
the log entries it emitted. -/
def normalizeOne (startId parentTaskId : Int) (idx : Nat) (st : Json) :
    Json × List (String × String) :=
  let target : Int := startId + idx
  let (st1, lg1) :=
    if getField st "id" == some (.num target) then (st, ([] : List (String × String)))
    else (setField st "id" (.num target), [("warn", correctIdMsg (getField st "id") target)])
  let st2 := setField st1 "dependencies" (.arr (depsCoerced st))
  let st3 := setField st2 "status" (.str "pending")
  let st4 := setField st3 "parentTaskId" (.num parentTaskId)
  (st4, lg1)

/-- Run `normalizeOne` over a record list starting at position `idx`.
Entries that are not plain objects abort the map (modelling the
strict-mode `TypeError` thrown by a property assignment on a primitive;
the id-correction warning of the offending entry has already been
emitted by then).  Records delivered as JSON *arrays* are also treated
as aborting here; JavaScript would instead attach properties to the
array object, but no record of that shape occurs in the claims. -/
def normAll (startId parentTaskId : Int) :
    Nat → List Json → (Option (List Json) × List (String × String))
  | _, [] => (some [], [])
  | idx, st :: rest =>
    match st with
    | .obj _ =>
      let (j, lg) := normalizeOne startId parentTaskId idx st
      let (js, lgs) := normAll startId parentTaskId (idx + 1) rest
      (js.map (j :: ·), lg ++ lgs)
    | .null => (none, [])
    | _ => (none, (normalizeOne startId parentTaskId idx st).2)

/-- One fallback subtask record, as synthesized by the `catch` block of
`parseSubtasksFromText`. -/
def mkFallbackSubtask (startId parentTaskId : Int) (i : Nat) : Json :=
  .obj [
    ("id", .num (startId + i)),
    ("title", .str ("Subtask " ++ toString (startId + (i : Int)))),
    ("description", .str "Auto-generated fallback subtask"),
    ("dependencies", .arr []),
    ("details", .str "This is a fallback subtask created because parsing failed. Please update with real details."),
    ("status", .str "pending"),
    ("parentTaskId", .num parentTaskId)]

/-- The fallback subtask list (ladder step 3, subtask-expansion path). -/
def fallbackSubtasks (startId : Int) (expectedCount : Nat) (parentTaskId : Int) : List Json :=
  (List.range expectedCount).map (mkFallbackSubtask startId parentTaskId)

/-- Result of `parseSubtasksFromText`: the returned records together with
the `log(level, message)` calls made on the way. -/
structure SubtasksResult where
  subtasks : List Json
  logs : List (String × String)
deriving DecidableEq

/-- Placeholder for the engine-defined `SyntaxError` message text of a
failed `JSON.parse` (its exact wording is platform-defined and is not
relied upon by any theorem). -/
def jsonSyntaxErrorMsg : String := "Unexpected token in JSON"

/-- Placeholder for the engine-defined `TypeError` message text of a
strict-mode property assignment on a primitive. -/
def typeErrorMsg : String := "Cannot create property on primitive"

/-- `parseSubtasksFromText(text, startId, expectedCount, parentTaskId)`:
locate the JSON array slice, parse it, validate it is an array, warn on a
count mismatch, and normalize each record; any failure falls back to
`expectedCount` placeholder records. -/
def parseSubtasksFromText (text : List Char) (startId : Int) (expectedCount : Nat)
    (parentTaskId : Int) : SubtasksResult :=
  let fallback := fun (preLogs : List (String × String)) (errMsg : String) =>
    { subtasks := fallbackSubtasks startId expectedCount parentTaskId
      logs := preLogs ++
        [("error", "Error parsing subtasks: " ++ errMsg),
         ("warn", "Creating fallback subtasks")] : SubtasksResult }
  match indexOfChar text '[', lastIndexOfChar text ']' with
  | some st, some en =>
    if en < st then fallback [] "Could not locate valid JSON array in the response"
    else
      match jsonParse (sliceL text st (en + 1)) with
      | none => fallback [] jsonSyntaxErrorMsg
      | some (.arr sts) =>
        let cntLogs :=
          if sts.length != expectedCount then [("warn", countMismatchMsg expectedCount sts.length)]
          else []
        (match normAll startId parentTaskId 0 sts with
         | (some js, lgs) => { subtasks := js, logs := cntLogs ++ lgs }
         | (none, lgs) => fallback (cntLogs ++ lgs) typeErrorMsg)
      | some _ => fallback [] "Parsed content is not an array"
  | _, _ => fallback [] "Could not locate valid JSON array in the response"

/-- One fallback task record, as synthesized by ladder step 3 of the
whole-document path in `handleStreamingRequest`. -/
def mkFallbackTask (i : Nat) : Json :=
  .obj [
    ("id", .num ((i : Int) + 1)),
    ("title", .str ("Task " ++ toString (i + 1))),
    ("description", .str ("Auto-generated fallback task " ++ toString (i + 1))),
    ("status", .str "pending"),
    ("dependencies", .arr []),
    ("priority", .str "medium"),
    ("details", .str "This task was auto-generated due to parsing issues with the AI response."),
    ("testStrategy", .str "Manual verification")]

/-- The fallback task list (ladder step 3, whole-document path). -/
def fallbackTasks (numTasks : Nat) : List Json :=
  (List.range numTasks).map mkFallbackTask

/-- The complete fallback document `{ tasks, metadata }`. -/
def fallbackTasksDoc (numTasks : Nat) (projectName prdPath generatedAt : String) : Json :=
  .obj [
    ("tasks", .arr (fallbackTasks numTasks)),
    ("metadata", .obj [
      ("projectName", .str projectName),
      ("totalTasks", .num numTasks),
      ("sourceFile", .str prdPath),
      ("generatedAt", .str generatedAt),
      ("note", .str "Tasks were generated as fallbacks due to AI response parsing issues.")])]

/-- The fallback ladder at the end of `handleStreamingRequest`
(whole-document path): parse the processed text directly; otherwise
slice between the first `'{'` and the last `'}'` and parse the slice;
otherwise synthesize the fallback document.  `projectNameEnv` models
`process.env.PROJECT_NAME` and `generatedAt` the current date string. -/
def extractTasksResponse (processedText : List Char) (numTasks : Nat)
    (projectNameEnv : Option String) (prdPath generatedAt : String) : Json :=
  let pname := envOr projectNameEnv "Task Master Project"
  match jsonParse processedText with
  | some j => j
  | none =>
    match indexOfChar processedText '{', lastIndexOfChar processedText '}' with
    | some st, some en =>
      if st < en then
        match jsonParse (sliceL processedText st (en + 1)) with
        | some j => j
        | none => fallbackTasksDoc numTasks pname prdPath generatedAt
      else fallbackTasksDoc numTasks pname prdPath generatedAt
    | _, _ => fallbackTasksDoc numTasks pname prdPath generatedAt

/-! ## Model Gateway: error handling and retry (`handleOllamaError`,
`callClaude`) -/

/-- The untyped error objects thrown inside the Gateway: node network
errors carry `code`, fetch timeouts carry `type`, HTTP failures carry
`status` and `message`. -/
structure JsError where
  code : Option String := none
  type : Option String := none
  status : Option Int := none
  message : Option String := none
deriving DecidableEq

/-- `error.message?.toLowerCase().includes(needle)` (ASCII lowering). -/
def lowerIncludes (m : Option String) (needle : String) : Bool :=
  match m with
  | none => false
  | some s => containsL (s.data.map Char.toLower) needle.data

/-- `error.message || 'Unknown error'`. -/
def msgOrUnknown : Option String → String
  | some s => if s == "" then "Unknown error" else s
  | none => "Unknown error"

/-- `handleOllamaError(error)`: the user-friendly message.  `apiUrl` and
`model` model the `OLLAMA_API_URL` and `OLLAMA_MODEL` configuration. -/
def handleOllamaError (apiUrl model : String) (e : JsError) : String :=
  if e.code == some "ECONNREFUSED" || e.code == some "ENOTFOUND" then
    "Could not connect to Ollama server at " ++ apiUrl ++ ". Make sure Ollama is running."
  else if e.type == some "request-timeout" || lowerIncludes e.message "timeout" then
    "The request to Ollama timed out. Your prompt might be too complex or the server is busy."
  else
    match e.status with
    | some s =>
      if s == 0 then
        -- a zero status is falsy in JS, so the `if (error.status)` block is skipped
        (if lowerIncludes e.message "network" then
          "There was a network error connecting to Ollama. Please check your internet connection and try again."
        else "Error communicating with Ollama: " ++ msgOrUnknown e.message)
      else if s == 404 then
        "Model \"" ++ model ++ "\" not found. You may need to run: ollama pull " ++ model
      else if s == 400 then
        "Bad request to Ollama API. The prompt might be malformed."
      else if s == 500 then
        "Ollama server error. Check the Ollama logs for more details."
      else
        "Ollama API error (" ++ toString s ++ "): " ++ msgOrUnknown e.message
    | none =>
      if lowerIncludes e.message "network" then
        "There was a network error connecting to Ollama. Please check your internet connection and try again."
      else "Error communicating with Ollama: " ++ msgOrUnknown e.message

/-- The retry guard of `callClaude`: connection codes, or a message
containing `timeout` or `network`. -/
def retryTransient (e : JsError) : Bool :=
  e.code == some "ECONNREFUSED" || e.code == some "ENOTFOUND" ||
  lowerIncludes e.message "timeout" || lowerIncludes e.message "network"

/-- The retry loop of `callClaude`, abstracted over the outcome of each
attempt (`attempt i` is the result of the request made with
`retryCount = i`).  Returns the final outcome together with the list of
waits (in milliseconds) performed, in order. -/
def callClaudeAux {α : Type} (apiUrl model : String) (attempt : Nat → Except JsError α)
    (retryCount : Nat) : Except String α × List Nat :=
  match attempt retryCount with
  | .ok r => (.ok r, [])
  | .error e =>
    if h : retryCount < 2 ∧ retryTransient e = true then
      let waitTime := (retryCount + 1) * 5000
      let rest := callClaudeAux apiUrl model attempt (retryCount + 1)
      (rest.1, waitTime :: rest.2)
    else (.error (handleOllamaError apiUrl model e), [])
termination_by 2 - retryCount
decreasing_by omega

/-- `callClaude` as seen by its caller: the retry loop started at
`retryCount = 0`. -/
def callClaude {α : Type} (apiUrl model : String) (attempt : Nat → Except JsError α) :
    Except String α × List Nat :=
  callClaudeAux apiUrl model attempt 0

/-! ## Lazily-initialized Perplexity client (`getPerplexityClient`) -/

/-- The configured client object (`new OpenAI({apiKey, baseURL})`). -/
structure PerplexityClient where
  apiKey : String
  baseURL : String
deriving DecidableEq

/-- The client constructed on first use. -/
def mkPerplexityClient (k : String) : PerplexityClient :=
  ⟨k, "https://api.perplexity.ai"⟩

/-- Outcome of one `getPerplexityClient()` call: the returned client (or
the thrown error message), the module-level `perplexity` variable after
the call, and whether this call ran the constructor. -/
structure ClientCall where
  result : Except String PerplexityClient
  state : Option PerplexityClient
  constructed : Bool

/-- `getPerplexityClient()` as a function of the `PERPLEXITY_API_KEY`
environment variable and of the current module-level `perplexity`
variable. -/
def getPerplexityClient (envKey : Option String) (st : Option PerplexityClient) : ClientCall :=
  match st with
  | some c => ⟨.ok c, some c, false⟩
  | none =>
    if envTruthy envKey then
      let c := mkPerplexityClient (envKey.getD "")
      ⟨.ok c, some c, true⟩
    else
      ⟨.error "PERPLEXITY_API_KEY environment variable is missing. Set it to use research-backed features.",
       none, false⟩

/-- A sequence of `n` successive `getPerplexityClient()` calls in one
process, threading the module-level variable. -/
def clientCalls (envKey : Option String) : Nat → Option PerplexityClient → List ClientCall
  | 0, _ => []
  | n + 1, st =>
    let call := getPerplexityClient envKey st
    call :: clientCalls envKey n call.state

/-! ## Dependency Graph Manager (`addDependency`)

Modelled from the spec: `dependency-manager.js` is not among the provided
sources (only an import of `addDependency` appears in the repository's
editor rules), so `addDependency` is defined following §4.5 of the
specification: resolve both references (NotFoundError on failure), reject
self-reference, succeed as a no-op when the edge already exists, then
perform a depth-first search from `dependsOnRef` along existing outgoing
edges and reject with CycleError when `ref` is reachable; otherwise
append the edge. -/

/-- A top-level task as seen by the dependency manager: its id and its
outgoing dependency edges. -/
structure DepTask where
  id : Nat
  dependencies : List Nat
deriving DecidableEq

/-- The task collection owned by the manager. -/
structure TaskCol where
  tasks : List DepTask
deriving DecidableEq

/-- Resolve a reference to its task. -/
def findTask (col : TaskCol) (i : Nat) : Option DepTask :=
  col.tasks.find? (fun t => t.id == i)

/-- The outgoing dependency edges of a node (empty for unresolvable
ids). -/
def depsOf (col : TaskCol) (i : Nat) : List Nat :=
  match findTask col i with
  | some t => t.dependencies
  | none => []

/-- The edge relation of the dependency graph. -/
def EdgeOf (col : TaskCol) (a b : Nat) : Prop :=
  b ∈ depsOf col a

/-- Modelled from the spec: the depth-first search of `addDependency`,
fuel-bounded; `reachB col fuel a b` searches for a path of at most
`fuel` edges from `a` to `b`. -/
def reachB (col : TaskCol) : Nat → Nat → Nat → Bool
  | 0, _, _ => false
  | fuel + 1, a, b => (depsOf col a).any (fun d => d == b || reachB col fuel d b)

/-- Errors raised by `addDependency`. -/
inductive DepErr where
  | notFound (id : Nat)
  | selfRef
  | cycleErr
deriving DecidableEq

/-- Modelled from the spec: `addDependency(ref, dependsOnRef)`.  Returns
the outcome and the (possibly updated) collection; every rejecting
branch returns the collection unchanged. -/
def addDependency (col : TaskCol) (ref dep : Nat) : Except DepErr Unit × TaskCol :=
  match findTask col ref, findTask col dep with
  | none, _ => (.error (.notFound ref), col)
  | some _, none => (.error (.notFound dep), col)
  | some t, some _ =>
    if ref == dep then (.error .selfRef, col)
    else if dep ∈ t.dependencies then (.ok (), col)
    else if reachB col col.tasks.length dep ref then (.error .cycleErr, col)
    else (.ok (),
      ⟨col.tasks.map (fun u =>
        if u.id == ref then { u with dependencies := u.dependencies ++ [dep] } else u)⟩)

/-! # Theorems -/

/-! ## C1: the Response Normalizer -/

/-- Strings on which all three replacement regexes have no match: every
backslash is immediately followed by one of `"ntbfr/` (or ends the
string). -/
def escSafe : List Char → Bool
  | [] => true
  | [_] => true
  | c :: d :: rest => (!(c == '\\') || !escClass d) && escSafe (d :: rest)

theorem fixQuotes_id : ∀ (p : Bool) (l : List Char), fixQuotes p l = l
  | _, [] => rfl
  | _, [c] => rfl
  | p, c :: d :: rest2 => by
    simp only [fixQuotes]
    split
    · next h =>
      simp only [Bool.and_eq_true, beq_iff_eq] at h
      rw [fixQuotes_id false rest2, h.1.1, h.1.2]
    · rw [fixQuotes_id (c == '\\') (d :: rest2)]

theorem fixQuoteEsc_safe_id : ∀ (l : List Char), escSafe l = true → fixQuoteEsc l = l
  | [], _ => rfl
  | [c], _ => rfl
  | c :: d :: rest2, h => by
    simp only [escSafe, Bool.and_eq_true, Bool.or_eq_true, Bool.not_eq_true'] at h
    simp only [fixQuoteEsc]
    have hnd : ¬(c == '\\' && d == squote) = true := by
      rcases h.1 with hc | hd
      · simp [hc]
      · intro hcd
        simp only [Bool.and_eq_true, beq_iff_eq] at hcd
        rw [hcd.2] at hd
        simp [escClass, squote] at hd
    rw [if_neg hnd, fixQuoteEsc_safe_id (d :: rest2) h.2]

theorem fixBackslashes_safe_id : ∀ (l : List Char), escSafe l = true → fixBackslashes l = l
  | [], _ => rfl
  | [c], _ => rfl
  | c :: d :: rest2, h => by
    simp only [escSafe, Bool.and_eq_true, Bool.or_eq_true, Bool.not_eq_true'] at h
    simp only [fixBackslashes]
    have hnd : ¬(c == '\\' && escClass d) = true := by
      rcases h.1 with hc | hd
      · simp [hc]
      · simp [hd]
    rw [if_neg hnd, fixBackslashes_safe_id (d :: rest2) h.2]

/-- Claim C1 (counterexample): the Response Normalizer is neither
idempotent nor a no-op on valid JSON.  The six-character text `"a\\b"`
is a valid JSON string literal, yet `processOllamaResponse` rewrites it
(doubling the escaped backslash), and a second application rewrites the
result again. -/
theorem c1_normalizer_counterexample :
    (jsonParse ("\"a\\\\b\"".data)).isSome = true ∧
    processOllamaResponse ("\"a\\\\b\"".data) ≠ "\"a\\\\b\"".data ∧
    processOllamaResponse (processOllamaResponse ("\"a\\\\b\"".data)) ≠
      processOllamaResponse ("\"a\\\\b\"".data) := by
  refine ⟨by decide, by decide, by decide⟩

/-- Claim C1 (amended): `processOllamaResponse` is a pure deterministic
function, and on every input in which each backslash is immediately
followed by one of the characters `"`, `n`, `t`, `b`, `f`, `r`, `/` (or
ends the text) it is the identity — hence idempotent and a no-op there.
On general input (and even on valid JSON containing an escaped
backslash) it is neither idempotent nor a no-op. -/
theorem c1_normalizer_amended (l : List Char) (h : escSafe l = true) :
    processOllamaResponse l = l ∧
    processOllamaResponse (processOllamaResponse l) = processOllamaResponse l := by
  have hid : processOllamaResponse l = l := by
    unfold processOllamaResponse
    rw [fixQuoteEsc_safe_id l h, fixBackslashes_safe_id l h, fixQuotes_id]
  exact ⟨hid, by rw [hid, hid]⟩

/-- Witness for C1 (amended), on the escaped text `{"a":"b\nc"}`. -/
theorem c1_normalizer_amended_witness :
    escSafe ("\x7b\"a\":\"b\\nc\"\x7d".data) = true ∧
    processOllamaResponse ("\x7b\"a\":\"b\\nc\"\x7d".data) = "\x7b\"a\":\"b\\nc\"\x7d".data :=
  ⟨by decide, (c1_normalizer_amended ("\x7b\"a\":\"b\\nc\"\x7d".data) (by decide)).1⟩

/-! ## C3 and C6: Gateway retry policy -/

theorem callClaudeAux_waits_le {α : Type} (apiUrl model : String)
    (attempt : Nat → Except JsError α) :
    ∀ (n rc : Nat), 2 - rc ≤ n →
      ((callClaudeAux apiUrl model attempt rc).2).length ≤ 2 - rc := by
  intro n
  induction n with
  | zero =>
    intro rc hrc
    rw [callClaudeAux.eq_def]
    cases hA : attempt rc with
    | ok r => simp
    | error e =>
      dsimp only
      rw [dif_neg (fun hc => absurd hc.1 (by omega))]
      simp
  | succ n ih =>
    intro rc hrc
    rw [callClaudeAux.eq_def]
    cases hA : attempt rc with
    | ok r => simp
    | error e =>
      dsimp only
      by_cases hc : rc < 2 ∧ retryTransient e = true
      · rw [dif_pos hc]
        have := ih (rc + 1) (by omega)
        simp only [List.length_cons]
        omega
      · rw [dif_neg hc]
        simp

/-- Claim C3: a Gateway call whose first two attempts fail with a
transient (connectivity/timeout) error and whose third attempt succeeds
returns the third attempt's result after exactly the two fixed waits of
5000 ms and then 10000 ms; and no call ever performs more than 2 waits
(3 attempts total). -/
theorem c3_gateway_retry {α : Type} (apiUrl model : String)
    (attempt : Nat → Except JsError α) (e0 e1 : JsError) (r : α)
    (h0 : attempt 0 = .error e0) (t0 : retryTransient e0 = true)
    (h1 : attempt 1 = .error e1) (t1 : retryTransient e1 = true)
    (h2 : attempt 2 = .ok r) :
    callClaude apiUrl model attempt = (.ok r, [5000, 10000]) ∧
    ∀ (attempt' : Nat → Except JsError α),
      ((callClaude apiUrl model attempt').2).length ≤ 2 := by
  constructor
  · have s2 : callClaudeAux apiUrl model attempt 2 = (.ok r, []) := by
      rw [callClaudeAux.eq_def, h2]
    have s1 : callClaudeAux apiUrl model attempt 1 = (.ok r, [10000]) := by
      rw [callClaudeAux.eq_def, h1]
      dsimp only
      rw [dif_pos ⟨by omega, t1⟩]
      simp [s2]
    have s0 : callClaudeAux apiUrl model attempt 0 = (.ok r, [5000, 10000]) := by
      rw [callClaudeAux.eq_def, h0]
      dsimp only
      rw [dif_pos ⟨by omega, t0⟩]
      simp [s1]
    exact s0
  · intro attempt'
    exact callClaudeAux_waits_le apiUrl model attempt' 2 0 (by omega)

/-- Witness for C3: two `ECONNREFUSED` failures, then success. -/
theorem c3_gateway_retry_witness :
    retryTransient { code := some "ECONNREFUSED" } = true ∧
    callClaude "http://localhost:11434" "llama3"
      (fun i => if i < 2 then Except.error { code := some "ECONNREFUSED" } else Except.ok 42) =
      (.ok 42, [5000, 10000]) := by
  refine ⟨by decide, ?_⟩
  exact (c3_gateway_retry "http://localhost:11434" "llama3"
    (fun i => if i < 2 then Except.error { code := some "ECONNREFUSED" } else Except.ok (42 : Nat))
    { code := some "ECONNREFUSED" } { code := some "ECONNREFUSED" } 42
    rfl (by decide) rfl (by decide) rfl).1

/-- Claim C6: a Gateway call failing with a non-transient HTTP-status
error fails immediately with no retry wait, surfacing the
`handleOllamaError` message; in the 404 case that message names the
missing model and the `ollama pull` command. -/
theorem c6_client_error_no_retry {α : Type} (apiUrl model : String)
    (attempt : Nat → Except JsError α) (e : JsError)
    (h0 : attempt 0 = .error e) (ht : retryTransient e = false) :
    callClaude apiUrl model attempt = (.error (handleOllamaError apiUrl model e), []) ∧
    (e.status = some 404 → e.type ≠ some "request-timeout" →
      handleOllamaError apiUrl model e =
        "Model \"" ++ model ++ "\" not found. You may need to run: ollama pull " ++ model) := by
  constructor
  · rw [callClaude, callClaudeAux.eq_def, h0]
    dsimp only
    rw [dif_neg (fun hc => by rw [ht] at hc; exact Bool.false_ne_true hc.2)]
  · intro h404 htype
    have hcomp := ht
    simp only [retryTransient, Bool.or_eq_false_iff] at hcomp
    unfold handleOllamaError
    rw [if_neg (by simp [hcomp.1.1.1, hcomp.1.1.2])]
    rw [if_neg (by
      simp only [Bool.or_eq_true, not_or]
      refine ⟨?_, by simp [hcomp.1.2]⟩
      simp only [beq_iff_eq]
      exact htype)]
    rw [h404]
    simp

/-- Witness for C6: a 404 model-not-found failure. -/
theorem c6_client_error_no_retry_witness :
    retryTransient { status := some 404, message := some "model not found" } = false ∧
    callClaude "http://localhost:11434" "llama3"
      (fun _ => Except.error { status := some 404, message := some "model not found" } :
        Nat → Except JsError Nat) =
      (.error (handleOllamaError "http://localhost:11434" "llama3"
        { status := some 404, message := some "model not found" }), []) ∧
    handleOllamaError "http://localhost:11434" "llama3"
      { status := some 404, message := some "model not found" } =
      "Model \"llama3\" not found. You may need to run: ollama pull llama3" := by
  have h := c6_client_error_no_retry (α := Nat) "http://localhost:11434" "llama3"
    (fun _ => Except.error { status := some 404, message := some "model not found" })
    { status := some 404, message := some "model not found" } rfl (by decide)
  exact ⟨by decide, h.1, h.2 rfl (by decide)⟩

/-! ## C9: the lazily-initialized shared research client -/

theorem clientCalls_steady (envKey : Option String) (c : PerplexityClient) :
    ∀ (m : Nat), clientCalls envKey m (some c) =
      List.replicate m ⟨.ok c, some c, false⟩ := by
  intro m
  induction m with
  | zero => rfl
  | succ m ih =>
    rw [clientCalls]
    simp only [getPerplexityClient]
    rw [ih]
    rfl

/-- Claim C9: the shared research client is created at most once per
process.  With the API key absent (or empty, which is falsy) the first
call fails with the missing-key error and constructs nothing; with a
non-empty key, a sequence of `n` calls starting from the uninitialized
module state all return the one client constructed by the first call,
and exactly one call (the first) runs the constructor. -/
theorem c9_client_singleton (k : String) (hk : k ≠ "") (n : Nat) :
    (getPerplexityClient none none).result =
      .error "PERPLEXITY_API_KEY environment variable is missing. Set it to use research-backed features." ∧
    (getPerplexityClient none none).constructed = false ∧
    (getPerplexityClient (some "") none).result =
      .error "PERPLEXITY_API_KEY environment variable is missing. Set it to use research-backed features." ∧
    (∀ call ∈ clientCalls (some k) n none, call.result = .ok (mkPerplexityClient k)) ∧
    ((clientCalls (some k) n none).filter (·.constructed)).length = min n 1 := by
  refine ⟨rfl, rfl, rfl, ?_, ?_⟩
  · intro call hcall
    cases n with
    | zero => simp [clientCalls] at hcall
    | succ m =>
      rw [clientCalls] at hcall
      have hfirst : getPerplexityClient (some k) none =
          ⟨.ok (mkPerplexityClient k), some (mkPerplexityClient k), true⟩ := by
        simp [getPerplexityClient, envTruthy, hk]
      rw [hfirst] at hcall
      simp only [List.mem_cons] at hcall
      rcases hcall with h | h
      · rw [h]
      · rw [clientCalls_steady (some k) (mkPerplexityClient k) m] at h
        have := List.eq_of_mem_replicate h
        rw [this]
  · cases n with
    | zero => simp [clientCalls]
    | succ m =>
      rw [clientCalls]
      have hfirst : getPerplexityClient (some k) none =
          ⟨.ok (mkPerplexityClient k), some (mkPerplexityClient k), true⟩ := by
        simp [getPerplexityClient, envTruthy, hk]
      rw [hfirst]
      rw [clientCalls_steady (some k) (mkPerplexityClient k) m]
      simp only [List.filter_cons]
      have hrep : (List.replicate m (⟨.ok (mkPerplexityClient k),
          some (mkPerplexityClient k), false⟩ : ClientCall)).filter (·.constructed) = [] := by
        apply List.filter_eq_nil_iff.mpr
        intro a ha
        have := List.eq_of_mem_replicate ha
        rw [this]
        simp
      simp [hrep]

/-- Witness for C9 with key `"pplx-key"` and three calls. -/
theorem c9_client_singleton_witness :
    ("pplx-key" ≠ "") ∧
    (∀ call ∈ clientCalls (some "pplx-key") 3 none,
      call.result = .ok (mkPerplexityClient "pplx-key")) ∧
    ((clientCalls (some "pplx-key") 3 none).filter (·.constructed)).length = min 3 1 := by
  have h := c9_client_singleton "pplx-key" (by decide) 3
  exact ⟨by decide, h.2.2.2.1, h.2.2.2.2⟩

/-! ## C10: fallback records have contiguous identifiers by construction -/

theorem fallbackTasks_ids (N : Nat) :
    (fallbackTasks N).map (fun t => getField t "id") =
      (List.range N).map (fun i : Nat => some (Json.num ((i : Int) + 1))) := by
  simp only [fallbackTasks, List.map_map]
  rfl

theorem fallbackSubtasks_ids (N : Nat) (startId parentTaskId : Int) :
    (fallbackSubtasks startId N parentTaskId).map (fun t => getField t "id") =
      (List.range N).map (fun i : Nat => some (Json.num (startId + (i : Int)))) := by
  simp only [fallbackSubtasks, List.map_map]
  rfl

/-- Claim C10: every step-3 fallback result has contiguous identifiers by
construction: the whole-document path carries ids exactly `1..N` with
priority `medium`, empty dependencies and `metadata.totalTasks = N`, and
the subtask path carries ids exactly `startId..startId+N-1` with
`parentTaskId` stamped on each record. -/
theorem c10_fallback_contiguous (N : Nat) (startId parentTaskId : Int)
    (pn path date : String) :
    getField (fallbackTasksDoc N pn path date) "tasks" = some (.arr (fallbackTasks N)) ∧
    (fallbackTasks N).map (fun t => getField t "id") =
      (List.range N).map (fun i : Nat => some (Json.num ((i : Int) + 1))) ∧
    (∀ t ∈ fallbackTasks N,
      getField t "priority" = some (.str "medium") ∧
      getField t "dependencies" = some (.arr [])) ∧
    (∃ md, getField (fallbackTasksDoc N pn path date) "metadata" = some md ∧
      getField md "totalTasks" = some (.num (N : Int))) ∧
    (fallbackSubtasks startId N parentTaskId).map (fun t => getField t "id") =
      (List.range N).map (fun i : Nat => some (Json.num (startId + (i : Int)))) ∧
    (∀ t ∈ fallbackSubtasks startId N parentTaskId,
      getField t "parentTaskId" = some (.num parentTaskId)) := by
  refine ⟨rfl, fallbackTasks_ids N, ?_, ⟨_, rfl, rfl⟩,
    fallbackSubtasks_ids N startId parentTaskId, ?_⟩
  · intro t ht
    rcases List.mem_map.mp ht with ⟨i, hi, rfl⟩
    exact ⟨rfl, rfl⟩
  · intro t ht
    rcases List.mem_map.mp ht with ⟨i, hi, rfl⟩
    rfl

/-! ## C2: the fallback ladder on unparseable input -/

/-- Claim C2: for every requested count `N ≥ 1` and every assembled text
that fails ladder steps 1–2 (syntactically invalid, empty, or without
bracket markers), both the whole-document path and the subtask path
return — without raising — exactly `N` placeholder records with status
`pending`, empty dependencies, positional title/description, and the
auto-generated-due-to-parsing-failure annotation. -/
theorem c2_fallback_ladder (N : Nat) (hN : 1 ≤ N) (tW tS : List Char)
    (pn : Option String) (path date : String) (startId parentTaskId : Int)
    (hw1 : jsonParse tW = none)
    (hw2 : ∀ st en, indexOfChar tW '{' = some st → lastIndexOfChar tW '}' = some en →
      st < en → jsonParse (sliceL tW st (en + 1)) = none)
    (hs2 : ∀ st en, indexOfChar tS '[' = some st → lastIndexOfChar tS ']' = some en →
      ¬ en < st → jsonParse (sliceL tS st (en + 1)) = none) :
    extractTasksResponse tW N pn path date =
      fallbackTasksDoc N (envOr pn "Task Master Project") path date ∧
    (fallbackTasks N).length = N ∧ 1 ≤ (fallbackTasks N).length ∧
    (∀ t ∈ fallbackTasks N,
      getField t "status" = some (.str "pending") ∧
      getField t "dependencies" = some (.arr []) ∧
      getField t "details" =
        some (.str "This task was auto-generated due to parsing issues with the AI response.")) ∧
    (fallbackTasks N).map (fun t => getField t "title") =
      (List.range N).map (fun i : Nat => some (Json.str ("Task " ++ toString (i + 1)))) ∧
    (fallbackTasks N).map (fun t => getField t "description") =
      (List.range N).map (fun i : Nat => some (Json.str ("Auto-generated fallback task " ++ toString (i + 1)))) ∧
    (parseSubtasksFromText tS startId N parentTaskId).subtasks =
      fallbackSubtasks startId N parentTaskId ∧
    (fallbackSubtasks startId N parentTaskId).length = N ∧
    (∀ t ∈ fallbackSubtasks startId N parentTaskId,
      getField t "status" = some (.str "pending") ∧
      getField t "dependencies" = some (.arr []) ∧
      getField t "description" = some (.str "Auto-generated fallback subtask") ∧
      getField t "details" =
        some (.str "This is a fallback subtask created because parsing failed. Please update with real details.")) ∧
    (fallbackSubtasks startId N parentTaskId).map (fun t => getField t "title") =
      (List.range N).map (fun i : Nat => some (Json.str ("Subtask " ++ toString (startId + (i : Int))))) := by
  refine ⟨?_, by simp [fallbackTasks], by simp [fallbackTasks]; omega, ?_, ?_, ?_, ?_,
    by simp [fallbackSubtasks], ?_, ?_⟩
  · -- whole-document path falls back
    rw [extractTasksResponse, hw1]
    dsimp only
    rcases hIdx : indexOfChar tW '{' with _ | st
    · rfl
    · rcases hEnd : lastIndexOfChar tW '}' with _ | en
      · rfl
      · dsimp only
        by_cases hlt : st < en
        · rw [if_pos hlt, hw2 st en hIdx hEnd hlt]
        · rw [if_neg hlt]
  · intro t ht
    rcases List.mem_map.mp ht with ⟨i, hi, rfl⟩
    exact ⟨rfl, rfl, rfl⟩
  · simp only [fallbackTasks, List.map_map]; rfl
  · simp only [fallbackTasks, List.map_map]; rfl
  · -- subtask path falls back
    rw [parseSubtasksFromText]
    dsimp only
    rcases hIdx : indexOfChar tS '[' with _ | st
    · rfl
    · rcases hEnd : lastIndexOfChar tS ']' with _ | en
      · rfl
      · dsimp only
        by_cases hlt : en < st
        · rw [if_pos hlt]
        · rw [if_neg hlt, hs2 st en hIdx hEnd hlt]
  · intro t ht
    rcases List.mem_map.mp ht with ⟨i, hi, rfl⟩
    exact ⟨rfl, rfl, rfl, rfl⟩
  · simp only [fallbackSubtasks, List.map_map]; rfl

/-- Witness for C2 at `N = 2`, with marker-bearing garbage on both
paths. -/
theorem c2_fallback_ladder_witness :
    jsonParse ("x\x7ba\x7dy".data) = none ∧
    jsonParse (sliceL ("x\x7ba\x7dy".data) 1 4) = none ∧
    jsonParse ("x[a]y".data) = none ∧
    jsonParse (sliceL ("x[a]y".data) 1 4) = none ∧
    extractTasksResponse ("x\x7ba\x7dy".data) 2 none "prd.txt" "2026-10-11" =
      fallbackTasksDoc 2 (envOr none "Task Master Project") "prd.txt" "2026-10-11" ∧
    (parseSubtasksFromText ("x[a]y".data) 4 2 9).subtasks = fallbackSubtasks 4 2 9 := by
  have h := c2_fallback_ladder 2 (by decide) ("x\x7ba\x7dy".data) ("x[a]y".data)
    none "prd.txt" "2026-10-11" 4 9
    (by decide)
    (by
      intro st en hst hen hlt
      have e1 : indexOfChar ("x\x7ba\x7dy".data) '{' = some 1 := by decide
      have e2 : lastIndexOfChar ("x\x7ba\x7dy".data) '}' = some 3 := by decide
      rw [e1] at hst
      rw [e2] at hen
      injection hst with h1
      injection hen with h2
      subst h1
      subst h2
      decide)
    (by
      intro st en hst hen hlt
      have e1 : indexOfChar ("x[a]y".data) '[' = some 1 := by decide
      have e2 : lastIndexOfChar ("x[a]y".data) ']' = some 3 := by decide
      rw [e1] at hst
      rw [e2] at hen
      injection hst with h1
      injection hen with h2
      subst h1
      subst h2
      decide)
  exact ⟨by decide, by decide, by decide, by decide, h.1, h.2.2.2.2.2.2.1⟩

/-! ## C5: the Stream Assembler -/

theorem splitNl_append (x y : List Char) (hx : '\n' ∉ x) :
    splitNl (x ++ '\n' :: y) = x :: splitNl y := by
  induction x with
  | nil => simp [splitNl]
  | cons c x' ih =>
    have hc : c ≠ '\n' := fun h => hx (by simp [h])
    have hx' : '\n' ∉ x' := fun h => hx (List.mem_cons_of_mem c h)
    simp only [List.cons_append, splitNl, if_neg hc, List.append_eq]
    rw [ih hx']

theorem splitNl_nlTerm (objs : List (List Char)) (hnl : ∀ o ∈ objs, '\n' ∉ o) :
    splitNl (nlTerm objs) = objs ++ [[]] := by
  induction objs with
  | nil => rfl
  | cons o objs ih =>
    have h1 : nlTerm (o :: objs) = o ++ '\n' :: nlTerm objs := by
      simp [nlTerm]
    rw [h1, splitNl_append o (nlTerm objs) (hnl o (List.mem_cons_self o objs)),
      ih (fun a ha => hnl a (List.mem_cons_of_mem o ha))]
    rfl

theorem foldl_append_map {α β : Type} (f : α → List β) :
    ∀ (L : List α) (acc : List β),
      L.foldl (fun a x => a ++ f x) acc = acc ++ (L.map f).flatten := by
  intro L
  induction L with
  | nil => intro acc; simp
  | cons x L ih => intro acc; simp [ih]

theorem assembleBody_nlTerm (objs : List (List Char))
    (hnl : ∀ o ∈ objs, '\n' ∉ o) (hkeep : ∀ o ∈ objs, keepLine o = true) :
    assembleBody (nlTerm objs) = (objs.map lineContent).flatten := by
  rw [assembleBody, splitNl_nlTerm objs hnl]
  have hfilter : (objs ++ [([] : List Char)]).filter keepLine = objs := by
    rw [List.filter_append, List.filter_eq_self.mpr hkeep]
    simp [keepLine]
  rw [hfilter, foldl_append_map]
  simp

/-- Claim C5: for every response delivered as a sequence of
newline-delimited JSON objects — as one buffered body or as incremental
fragments cut at line boundaries — the assembled text equals the
concatenation, in arrival order, of the `message.content` field of every
object carrying one; lines that are not valid JSON contribute nothing
and cause no error. -/
theorem c5_stream_assembler (objs : List (List Char)) (groups : List (List (List Char)))
    (hnl : ∀ o ∈ objs, '\n' ∉ o) (hkeep : ∀ o ∈ objs, keepLine o = true)
    (hgroups : groups.flatten = objs) :
    assembleBody (nlTerm objs) = (objs.map lineContent).flatten ∧
    assembleChunks (groups.map nlTerm) = (objs.map lineContent).flatten ∧
    (∀ line, jsonParse line = none → lineContent line = []) ∧
    (∀ line j, jsonParse line = some j → lineContent line = contentFragment j) := by
  refine ⟨assembleBody_nlTerm objs hnl hkeep, ?_, ?_, ?_⟩
  · -- incremental delivery: per-chunk processing of the same lines
    subst hgroups
    induction groups with
    | nil => rfl
    | cons g gs ih =>
      have hnlg : ∀ o ∈ g, '\n' ∉ o := fun o ho =>
        hnl o (by simp [List.mem_flatten]; exact Or.inl ho)
      have hkg : ∀ o ∈ g, keepLine o = true := fun o ho =>
        hkeep o (by simp [List.mem_flatten]; exact Or.inl ho)
      have hnl' : ∀ o ∈ gs.flatten, '\n' ∉ o := fun o ho =>
        hnl o (by simp [List.mem_flatten] at ho ⊢; exact Or.inr ho)
      have hkeep' : ∀ o ∈ gs.flatten, keepLine o = true := fun o ho =>
        hkeep o (by simp [List.mem_flatten] at ho ⊢; exact Or.inr ho)
      have hstep : assembleChunks ((g :: gs).map nlTerm) =
          assembleBody (nlTerm g) ++ assembleChunks (gs.map nlTerm) := by
        simp only [assembleChunks, List.map_cons, List.foldl_cons, List.nil_append]
        rw [foldl_append_map assembleBody, foldl_append_map assembleBody]
        simp
      rw [hstep, ih hnl' hkeep', assembleBody_nlTerm g hnlg hkg]
      simp [List.flatten_append]
  · intro line h
    rw [lineContent, h]
  · intro line j h
    rw [lineContent, h]

/-- Witness for C5: two content fragments around an invalid line,
delivered buffered and as two chunks. -/
theorem c5_stream_assembler_witness :
    assembleBody (nlTerm ["\x7b\"message\":\x7b\"content\":\"Hel\"\x7d\x7d".data,
        "garbage".data, "\x7b\"message\":\x7b\"content\":\"lo\"\x7d\x7d".data]) =
      ((["\x7b\"message\":\x7b\"content\":\"Hel\"\x7d\x7d".data,
        "garbage".data, "\x7b\"message\":\x7b\"content\":\"lo\"\x7d\x7d".data].map lineContent).flatten) ∧
    assembleChunks ([["\x7b\"message\":\x7b\"content\":\"Hel\"\x7d\x7d".data],
        ["garbage".data, "\x7b\"message\":\x7b\"content\":\"lo\"\x7d\x7d".data]].map nlTerm) =
      ((["\x7b\"message\":\x7b\"content\":\"Hel\"\x7d\x7d".data,
        "garbage".data, "\x7b\"message\":\x7b\"content\":\"lo\"\x7d\x7d".data].map lineContent).flatten) ∧
    ((["\x7b\"message\":\x7b\"content\":\"Hel\"\x7d\x7d".data,
        "garbage".data, "\x7b\"message\":\x7b\"content\":\"lo\"\x7d\x7d".data].map lineContent).flatten) =
      "Hello".data := by
  have h := c5_stream_assembler
    ["\x7b\"message\":\x7b\"content\":\"Hel\"\x7d\x7d".data,
      "garbage".data, "\x7b\"message\":\x7b\"content\":\"lo\"\x7d\x7d".data]
    [["\x7b\"message\":\x7b\"content\":\"Hel\"\x7d\x7d".data],
      ["garbage".data, "\x7b\"message\":\x7b\"content\":\"lo\"\x7d\x7d".data]]
    (by decide) (by decide) rfl
  exact ⟨h.1, h.2.1, by decide⟩

/-! ## C4 and C7: the Task/Subtask Normalizer on successfully parsed
records -/

/-- `Array.prototype.map((x, i) => ...)` starting at position `idx`. -/
def mapIdxFrom {α β : Type} (f : Nat → α → β) : Nat → List α → List β
  | _, [] => []
  | i, a :: as => f i a :: mapIdxFrom f (i + 1) as

theorem mapIdxFrom_length {α β : Type} (f : Nat → α → β) :
    ∀ (idx : Nat) (l : List α), (mapIdxFrom f idx l).length = l.length := by
  intro idx l
  induction l generalizing idx with
  | nil => rfl
  | cons a as ih => simp [mapIdxFrom, ih]

theorem mapIdxFrom_getElem? {α β : Type} (f : Nat → α → β) :
    ∀ (l : List α) (idx k : Nat),
      (mapIdxFrom f idx l)[k]? = (l[k]?).map (f (idx + k)) := by
  intro l
  induction l with
  | nil => intro idx k; simp [mapIdxFrom]
  | cons a as ih =>
    intro idx k
    cases k with
    | zero => simp [mapIdxFrom]
    | succ k =>
      simp only [mapIdxFrom, List.getElem?_cons_succ]
      rw [ih (idx + 1) k]
      have he : idx + 1 + k = idx + (k + 1) := by omega
      rw [he]

theorem lookup_upsert_self (fs : List (String × Json)) (k : String) (v : Json) :
    lookupField (objUpsert fs k v) k = some v := by
  induction fs with
  | nil => simp [objUpsert, lookupField]
  | cons f fs ih =>
    rcases f with ⟨k', v'⟩
    by_cases h : k' == k
    · simp [objUpsert, lookupField, h]
    · simp [objUpsert, lookupField, h, ih]

theorem lookup_upsert_ne (fs : List (String × Json)) (k k' : String) (v : Json)
    (hne : k' ≠ k) : lookupField (objUpsert fs k v) k' = lookupField fs k' := by
  induction fs with
  | nil =>
    simp only [objUpsert, lookupField]
    rw [if_neg (by simpa using fun h => hne h.symm)]
  | cons f fs ih =>
    rcases f with ⟨k0, v0⟩
    by_cases h : k0 == k
    · simp only [objUpsert, if_pos h, lookupField]
      have : ¬(k0 == k') = true := by
        simp only [beq_iff_eq] at h ⊢
        rw [h]
        exact fun hx => hne hx.symm
      rw [if_neg this, if_neg this]
    · simp only [objUpsert, if_neg h, lookupField]
      by_cases h2 : k0 == k'
      · rw [if_pos h2, if_pos h2]
      · rw [if_neg h2, if_neg h2, ih]

theorem getField_setField_self (j : Json) (k : String) (v : Json)
    (h : j.isObj = true) : getField (setField j k v) k = some v := by
  cases j <;> simp [Json.isObj] at h ⊢
  exact lookup_upsert_self _ k v

theorem getField_setField_ne (j : Json) (k k' : String) (v : Json)
    (hne : k' ≠ k) : getField (setField j k v) k' = getField j k' := by
  cases j <;> simp [setField, getField]
  exact lookup_upsert_ne _ k k' v hne

theorem isObj_setField (j : Json) (k : String) (v : Json) :
    (setField j k v).isObj = j.isObj := by
  cases j <;> rfl

/-- The four stamped fields of a normalized record. -/
theorem normalizeOne_fields (startId parentTaskId : Int) (idx : Nat) (st : Json)
    (h : st.isObj = true) :
    getField (normalizeOne startId parentTaskId idx st).1 "id" =
      some (.num (startId + idx)) ∧
    getField (normalizeOne startId parentTaskId idx st).1 "status" =
      some (.str "pending") ∧
    getField (normalizeOne startId parentTaskId idx st).1 "parentTaskId" =
      some (.num parentTaskId) ∧
    getField (normalizeOne startId parentTaskId idx st).1 "dependencies" =
      some (.arr (depsCoerced st)) := by
  unfold normalizeOne
  by_cases hid : getField st "id" == some (Json.num (startId + idx))
  all_goals simp only [hid, if_pos, if_neg, Bool.false_eq_true, if_true, if_false]
  · have hobj1 : st.isObj = true := h
    have hg : getField st "id" = some (Json.num (startId + idx)) := by
      simpa using hid
    refine ⟨?_, ?_, ?_, ?_⟩
    · rw [getField_setField_ne _ _ _ _ (by decide),
        getField_setField_ne _ _ _ _ (by decide),
        getField_setField_ne _ _ _ _ (by decide), hg]
    · rw [getField_setField_ne _ _ _ _ (by decide),
        getField_setField_self _ _ _ (by rw [isObj_setField]; exact h)]
    · rw [getField_setField_self _ _ _
        (by rw [isObj_setField, isObj_setField]; exact h)]
    · rw [getField_setField_ne _ _ _ _ (by decide),
        getField_setField_ne _ _ _ _ (by decide),
        getField_setField_self _ _ _ h]
  · have h1 : (setField st "id" (Json.num (startId + idx))).isObj = true := by
      rw [isObj_setField]; exact h
    refine ⟨?_, ?_, ?_, ?_⟩
    · rw [getField_setField_ne _ _ _ _ (by decide),
        getField_setField_ne _ _ _ _ (by decide),
        getField_setField_ne _ _ _ _ (by decide),
        getField_setField_self _ _ _ h]
    · rw [getField_setField_ne _ _ _ _ (by decide),
        getField_setField_self _ _ _ (by rw [isObj_setField]; exact h1)]
    · rw [getField_setField_self _ _ _
        (by rw [isObj_setField, isObj_setField]; exact h1)]
    · rw [getField_setField_ne _ _ _ _ (by decide),
        getField_setField_ne _ _ _ _ (by decide),
        getField_setField_self _ _ _ h1]

/-- The log entries of one normalization step: a correction warning
exactly when the returned id disagreed with the reassigned one. -/
theorem normalizeOne_logs (startId parentTaskId : Int) (idx : Nat) (st : Json) :
    (normalizeOne startId parentTaskId idx st).2 =
      if getField st "id" == some (Json.num (startId + idx)) then []
      else [("warn", correctIdMsg (getField st "id") (startId + idx))] := by
  unfold normalizeOne
  by_cases hid : getField st "id" == some (Json.num (startId + idx)) <;>
    simp [hid]

/-- `normAll` on a list of plain-object records: every record is
normalized in order, and the logs are the per-record logs in order. -/
theorem normAll_all_obj (startId parentTaskId : Int) :
    ∀ (sts : List Json) (idx : Nat), (∀ s ∈ sts, s.isObj = true) →
      normAll startId parentTaskId idx sts =
        (some (mapIdxFrom (fun i s => (normalizeOne startId parentTaskId i s).1) idx sts),
         (mapIdxFrom (fun i s => (normalizeOne startId parentTaskId i s).2) idx sts).flatten) := by
  intro sts
  induction sts with
  | nil => intro idx h; rfl
  | cons s sts ih =>
    intro idx h
    have hs := h s (List.mem_cons_self s sts)
    have hrest := ih (idx + 1) (fun a ha => h a (List.mem_cons_of_mem s ha))
    cases s <;> simp [Json.isObj] at hs
    rw [normAll]
    rw [hrest]
    simp [mapIdxFrom]

/-- The success path of `parseSubtasksFromText` (ladder steps 1–2):
the characterization shared by C4 and C7. -/
theorem parseSubtasks_success (text : List Char) (startId parentTaskId : Int)
    (N : Nat) (st en : Nat) (sts : List Json)
    (hst : indexOfChar text '[' = some st)
    (hen : lastIndexOfChar text ']' = some en)
    (hlt : ¬ en < st)
    (hp : jsonParse (sliceL text st (en + 1)) = some (.arr sts))
    (hobj : ∀ s ∈ sts, s.isObj = true) :
    parseSubtasksFromText text startId N parentTaskId =
      { subtasks := mapIdxFrom (fun i s => (normalizeOne startId parentTaskId i s).1) 0 sts
        logs := (if sts.length != N then [("warn", countMismatchMsg N sts.length)] else []) ++
          (mapIdxFrom (fun i s => (normalizeOne startId parentTaskId i s).2) 0 sts).flatten } := by
  rw [parseSubtasksFromText]
  dsimp only
  rw [hst, hen]
  dsimp only
  rw [if_neg hlt, hp]
  dsimp only
  rw [normAll_all_obj startId parentTaskId sts 0 hobj]

/-- Claim C7: when the number `M` of actually-parsed records differs from
the requested count `N`, the extractor logs a non-fatal count-mismatch
warning, does not raise, and returns exactly the `M` parsed records
(normalized), with no padding to `N` and no truncation. -/
theorem c7_count_mismatch (text : List Char) (startId parentTaskId : Int)
    (N : Nat) (st en : Nat) (sts : List Json)
    (hst : indexOfChar text '[' = some st)
    (hen : lastIndexOfChar text ']' = some en)
    (hlt : ¬ en < st)
    (hp : jsonParse (sliceL text st (en + 1)) = some (.arr sts))
    (hobj : ∀ s ∈ sts, s.isObj = true)
    (hne : sts.length ≠ N) :
    (parseSubtasksFromText text startId N parentTaskId).subtasks =
      mapIdxFrom (fun i s => (normalizeOne startId parentTaskId i s).1) 0 sts ∧
    (parseSubtasksFromText text startId N parentTaskId).subtasks.length = sts.length ∧
    ("warn", countMismatchMsg N sts.length) ∈
      (parseSubtasksFromText text startId N parentTaskId).logs := by
  rw [parseSubtasks_success text startId parentTaskId N st en sts hst hen hlt hp hobj]
  refine ⟨rfl, mapIdxFrom_length _ 0 sts, ?_⟩
  have : (sts.length != N) = true := by simpa using hne
  simp [this]

/-- Witness for C7: the spec's example — `count = 3` requested, two valid
records with ids 7 and 9, renumbered to `[offset, offset + 1]` with
`offset = 1`, warning logged. -/
theorem c7_count_mismatch_witness :
    indexOfChar ("[\x7b\"id\": 7\x7d, \x7b\"id\": 9\x7d]".data) '[' = some 0 ∧
    lastIndexOfChar ("[\x7b\"id\": 7\x7d, \x7b\"id\": 9\x7d]".data) ']' = some 21 ∧
    jsonParse (sliceL ("[\x7b\"id\": 7\x7d, \x7b\"id\": 9\x7d]".data) 0 22) =
      some (.arr [.obj [("id", .num 7)], .obj [("id", .num 9)]]) ∧
    (parseSubtasksFromText ("[\x7b\"id\": 7\x7d, \x7b\"id\": 9\x7d]".data) 1 3 5).subtasks.length = 2 ∧
    ("warn", countMismatchMsg 3 2) ∈
      (parseSubtasksFromText ("[\x7b\"id\": 7\x7d, \x7b\"id\": 9\x7d]".data) 1 3 5).logs ∧
    (parseSubtasksFromText ("[\x7b\"id\": 7\x7d, \x7b\"id\": 9\x7d]".data) 1 3 5).subtasks.map
      (fun t => getField t "id") = [some (.num 1), some (.num 2)] := by
  have h := c7_count_mismatch ("[\x7b\"id\": 7\x7d, \x7b\"id\": 9\x7d]".data) 1 5 3 0 21
    [.obj [("id", .num 7)], .obj [("id", .num 9)]]
    (by decide) (by decide) (by decide) (by decide)
    (by decide)
    (by decide)
  exact ⟨by decide, by decide, by decide, h.2.1, h.2.2, by decide⟩

theorem mem_of_getElemOpt {α : Type} : ∀ (l : List α) (k : Nat) (a : α),
    l[k]? = some a → a ∈ l := by
  intro l
  induction l with
  | nil => intro k a h; simp at h
  | cons x xs ih =>
    intro k a h
    cases k with
    | zero => simp at h; simp [h]
    | succ k =>
      simp only [List.getElem?_cons_succ] at h
      exact List.mem_cons_of_mem x (ih k a h)

/-- Claim C4: on a subtask list successfully parsed at ladder steps 1–2,
`parseSubtasksFromText` returns the records in original order with ids
reassigned to `startId, startId+1, ...` (logging a correction exactly
when the returned id disagreed), status forced to `pending`,
`parentTaskId` stamped, string dependency entries passed through
`parseInt(·, 10)` (an integer whenever the text is numeric), and absent
or non-array dependency fields replaced by the empty set. -/
theorem c4_subtask_normalizer (text : List Char) (startId parentTaskId : Int)
    (N : Nat) (st en : Nat) (sts : List Json)
    (hst : indexOfChar text '[' = some st)
    (hen : lastIndexOfChar text ']' = some en)
    (hlt : ¬ en < st)
    (hp : jsonParse (sliceL text st (en + 1)) = some (.arr sts))
    (hobj : ∀ s ∈ sts, s.isObj = true) :
    (parseSubtasksFromText text startId N parentTaskId).subtasks =
      mapIdxFrom (fun i s => (normalizeOne startId parentTaskId i s).1) 0 sts ∧
    (parseSubtasksFromText text startId N parentTaskId).subtasks.length = sts.length ∧
    (∀ (k : Nat) (s : Json), sts[k]? = some s →
      (parseSubtasksFromText text startId N parentTaskId).subtasks[k]? =
        some ((normalizeOne startId parentTaskId k s).1) ∧
      getField ((normalizeOne startId parentTaskId k s).1) "id" =
        some (.num (startId + k)) ∧
      getField ((normalizeOne startId parentTaskId k s).1) "status" =
        some (.str "pending") ∧
      getField ((normalizeOne startId parentTaskId k s).1) "parentTaskId" =
        some (.num parentTaskId) ∧
      getField ((normalizeOne startId parentTaskId k s).1) "dependencies" =
        some (.arr (depsCoerced s)) ∧
      (normalizeOne startId parentTaskId k s).2 =
        (if getField s "id" == some (Json.num (startId + k)) then []
         else [("warn", correctIdMsg (getField s "id") (startId + k))])) ∧
    (parseSubtasksFromText text startId N parentTaskId).logs =
      (if sts.length != N then [("warn", countMismatchMsg N sts.length)] else []) ++
        (mapIdxFrom (fun i s => (normalizeOne startId parentTaskId i s).2) 0 sts).flatten ∧
    (∀ (w : List Char) (k : Int), jsParseInt w = some k →
      coerceDep (.str (String.mk w)) = .num k) := by
  rw [parseSubtasks_success text startId parentTaskId N st en sts hst hen hlt hp hobj]
  refine ⟨rfl, mapIdxFrom_length _ 0 sts, ?_, rfl, ?_⟩
  · intro k s hk
    have hmem : s ∈ sts := mem_of_getElemOpt sts k s hk
    have hfields := normalizeOne_fields startId parentTaskId k s (hobj s hmem)
    refine ⟨?_, hfields.1, hfields.2.1, hfields.2.2.1, hfields.2.2.2,
      normalizeOne_logs startId parentTaskId k s⟩
    rw [mapIdxFrom_getElem?, hk]
    simp
  · intro w k hw
    simp [coerceDep, hw]

/-- Witness for C4: one record with a wrong id, string and numeric
dependencies, and a non-pending status. -/
theorem c4_subtask_normalizer_witness :
    jsonParse (sliceL ("[\x7b\"id\": 5, \"dependencies\": [\"7\", 8], \"status\": \"done\"\x7d]".data) 0 55) =
      some (.arr [.obj [("id", .num 5), ("dependencies", .arr [.str "7", .num 8]),
        ("status", .str "done")]]) ∧
    (parseSubtasksFromText
        ("[\x7b\"id\": 5, \"dependencies\": [\"7\", 8], \"status\": \"done\"\x7d]".data)
        1 1 4).subtasks.length = 1 ∧
    (parseSubtasksFromText
        ("[\x7b\"id\": 5, \"dependencies\": [\"7\", 8], \"status\": \"done\"\x7d]".data)
        1 1 4).subtasks.map (fun t =>
          (getField t "id", getField t "status", getField t "parentTaskId",
           getField t "dependencies")) =
      [(some (.num 1), some (.str "pending"), some (.num 4),
        some (.arr [.num 7, .num 8]))] ∧
    ("warn", correctIdMsg (some (.num 5)) 1) ∈
      (parseSubtasksFromText
        ("[\x7b\"id\": 5, \"dependencies\": [\"7\", 8], \"status\": \"done\"\x7d]".data)
        1 1 4).logs := by
  have h := c4_subtask_normalizer
    ("[\x7b\"id\": 5, \"dependencies\": [\"7\", 8], \"status\": \"done\"\x7d]".data)
    1 4 1 0 54
    [.obj [("id", .num 5), ("dependencies", .arr [.str "7", .num 8]),
      ("status", .str "done")]]
    (by decide) (by decide) (by decide) (by decide) (by decide)
  refine ⟨by decide, h.2.1, by decide, ?_⟩
  rw [h.2.2.2.1]
  decide

/-! ## C8: `addDependency` rejects cycle-closing edges
(spec-modelled, see the `addDependency` definition above) -/

theorem edge_source_isSome (col : TaskCol) (a b : Nat) (h : EdgeOf col a b) :
    (findTask col a).isSome = true := by
  rw [EdgeOf, depsOf] at h
  rcases hf : findTask col a with _ | t
  · rw [hf] at h; simp at h
  · rfl

theorem isSome_mem_ids (col : TaskCol) (a : Nat)
    (h : (findTask col a).isSome = true) : a ∈ col.tasks.map (·.id) := by
  rcases hf : findTask col a with _ | t
  · rw [hf] at h; simp at h
  · have hmem := List.mem_of_find?_eq_some hf
    have hid := List.find?_some hf
    simp only [beq_iff_eq] at hid
    exact List.mem_map.mpr ⟨t, hmem, hid⟩

theorem chain_mem_transGen (col : TaskCol) :
    ∀ (l : List Nat) (a : Nat), List.Chain (EdgeOf col) a l →
      ∀ b ∈ l, Relation.TransGen (EdgeOf col) a b := by
  intro l
  induction l with
  | nil => intro a hc b hb; simp at hb
  | cons x l' ih =>
    intro a hc b hb
    cases hc with
    | cons hax hc' =>
      rcases List.mem_cons.mp hb with rfl | hb'
      · exact Relation.TransGen.single hax
      · exact Relation.TransGen.head hax (ih x hc' b hb')

theorem chain_nodup (col : TaskCol)
    (hAcyc : ∀ v, ¬ Relation.TransGen (EdgeOf col) v v) :
    ∀ (l : List Nat) (a : Nat), List.Chain (EdgeOf col) a l → (a :: l).Nodup := by
  intro l
  induction l with
  | nil => intro a _; simp
  | cons x l' ih =>
    intro a hc
    cases hc with
    | cons hax hc' =>
      have hrest := ih x hc'
      refine List.Nodup.cons ?_ hrest
      intro hmem
      exact hAcyc a (chain_mem_transGen col (x :: l') a (List.Chain.cons hax hc') a hmem)

theorem chain_sources (col : TaskCol) :
    ∀ (l : List Nat) (a : Nat) (hc : List.Chain (EdgeOf col) a l),
      ∀ v ∈ a :: l, v = (a :: l).getLast (List.cons_ne_nil a l) ∨
        (findTask col v).isSome = true := by
  intro l
  induction l with
  | nil =>
    intro a hc v hv
    simp at hv
    subst hv
    exact Or.inl rfl
  | cons x l' ih =>
    intro a hc v hv
    cases hc with
    | cons hax hc' =>
      rcases List.mem_cons.mp hv with rfl | hv'
      · exact Or.inr (edge_source_isSome col v x hax)
      · rcases ih x hc' v hv' with h | h
        · left
          rw [List.getLast_cons (List.cons_ne_nil x l')]
          exact h
        · exact Or.inr h

theorem nodup_subset_length {l ids : List Nat} (hnd : l.Nodup)
    (hsub : ∀ v ∈ l, v ∈ ids) : l.length ≤ ids.length := by
  have h1 : l.toFinset.card = l.length := List.toFinset_card_of_nodup hnd
  have h2 : l.toFinset ⊆ ids.toFinset := by
    intro v hv
    rw [List.mem_toFinset] at hv ⊢
    exact hsub v hv
  have h3 := Finset.card_le_card h2
  have h4 : ids.toFinset.card ≤ ids.length := List.toFinset_card_le ids
  omega

theorem chain_reachB (col : TaskCol) :
    ∀ (l : List Nat) (a b : Nat) (fuel : Nat),
      List.Chain (EdgeOf col) a l → l ≠ [] →
      (a :: l).getLast (List.cons_ne_nil a l) = b → l.length ≤ fuel →
      reachB col fuel a b = true := by
  intro l
  induction l with
  | nil => intro a b fuel _ hne; exact absurd rfl hne
  | cons x l' ih =>
    intro a b fuel hc _ hlast hfuel
    cases hc with
    | cons hax hc' =>
      cases fuel with
      | zero => simp at hfuel
      | succ f =>
        rw [reachB]
        rw [List.any_eq_true]
        refine ⟨x, hax, ?_⟩
        cases l' with
        | nil =>
          have hxb : x = b := by simpa using hlast
          simp [hxb]
        | cons y l'' =>
          have hlast' : (x :: y :: l'').getLast (List.cons_ne_nil x (y :: l'')) = b := by
            rw [← hlast, List.getLast_cons (List.cons_ne_nil x (y :: l''))]
          have hr := ih x b f hc' (List.cons_ne_nil y l'') hlast' (by simp at hfuel ⊢; omega)
          simp [hr]

/-- Completeness of the fuel-bounded depth-first search: in an acyclic
collection, any node reachable along dependency edges is found with fuel
`col.tasks.length`, provided the target resolves. -/
theorem transGen_reachB (col : TaskCol)
    (hAcyc : ∀ v, ¬ Relation.TransGen (EdgeOf col) v v)
    (a b : Nat) (hb : (findTask col b).isSome = true)
    (h : Relation.TransGen (EdgeOf col) a b) :
    reachB col col.tasks.length a b = true := by
  obtain ⟨l, hchain, hlast⟩ :=
    List.exists_chain_of_relationReflTransGen h.to_reflTransGen
  have hlne : l ≠ [] := by
    intro hl
    subst hl
    simp at hlast
    subst hlast
    exact hAcyc a h
  have hnd : (a :: l).Nodup := chain_nodup col hAcyc l a hchain
  have hsub : ∀ v ∈ a :: l, v ∈ col.tasks.map (·.id) := by
    intro v hv
    rcases chain_sources col l a hchain v hv with hlv | hsv
    · rw [hlv, hlast]
      exact isSome_mem_ids col b hb
    · exact isSome_mem_ids col v hsv
  have hlen : (a :: l).length ≤ (col.tasks.map (·.id)).length :=
    nodup_subset_length hnd hsub
  simp only [List.length_cons, List.length_map] at hlen
  exact chain_reachB col l a b col.tasks.length hchain hlne hlast (by omega)

/-- Claim C8 (spec-modelled): on an acyclic collection, when `ref` is
reachable from `dependsOnRef` along existing dependency edges and both
references resolve, `addDependency(ref, dependsOnRef)` is rejected with
CycleError and the collection, including its edge set, is returned
unchanged. -/
theorem c8_addDependency_cycle (col : TaskCol) (ref dep : Nat)
    (hAcyc : ∀ v, ¬ Relation.TransGen (EdgeOf col) v v)
    (href : (findTask col ref).isSome = true)
    (hdep : (findTask col dep).isSome = true)
    (hreach : Relation.TransGen (EdgeOf col) dep ref) :
    addDependency col ref dep = (.error .cycleErr, col) := by
  obtain ⟨t, ht⟩ := Option.isSome_iff_exists.mp href
  obtain ⟨u, hu⟩ := Option.isSome_iff_exists.mp hdep
  have hne : ref ≠ dep := by
    intro h
    subst h
    exact hAcyc ref hreach
  have hnotmem : dep ∉ t.dependencies := by
    intro hmem
    have hedge : EdgeOf col ref dep := by
      rw [EdgeOf, depsOf, ht]
      exact hmem
    exact hAcyc ref (Relation.TransGen.trans (Relation.TransGen.single hedge) hreach)
  rw [addDependency, ht, hu]
  dsimp only
  rw [if_neg (by simpa using hne)]
  rw [if_neg hnotmem]
  rw [if_pos (transGen_reachB col hAcyc dep ref href hreach)]

/-- Edges that always decrease a measure allow no cycle. -/
theorem acyclic_of_ltEdges (col : TaskCol)
    (h : ∀ a b, EdgeOf col a b → b < a) :
    ∀ v, ¬ Relation.TransGen (EdgeOf col) v v := by
  have hlt : ∀ x y, Relation.TransGen (EdgeOf col) x y → y < x := by
    intro x y hxy
    induction hxy with
    | single h1 => exact h _ _ h1
    | tail hab hbc ih => exact lt_trans (h _ _ hbc) ih
  intro v hv
  exact lt_irrefl v (hlt v v hv)

/-- Witness for C8: the spec's example — tasks `{1, 2, 3}` with edges
`2 → 1` and `3 → {1, 2}`; `addDependency(1, 3)` fails with CycleError
and leaves the collection unchanged. -/
theorem c8_addDependency_cycle_witness :
    (findTask ⟨[⟨1, []⟩, ⟨2, [1]⟩, ⟨3, [1, 2]⟩]⟩ 1).isSome = true ∧
    (findTask ⟨[⟨1, []⟩, ⟨2, [1]⟩, ⟨3, [1, 2]⟩]⟩ 3).isSome = true ∧
    addDependency ⟨[⟨1, []⟩, ⟨2, [1]⟩, ⟨3, [1, 2]⟩]⟩ 1 3 =
      (.error .cycleErr, ⟨[⟨1, []⟩, ⟨2, [1]⟩, ⟨3, [1, 2]⟩]⟩) := by
  have hAcyc : ∀ v, ¬ Relation.TransGen
      (EdgeOf ⟨[⟨1, []⟩, ⟨2, [1]⟩, ⟨3, [1, 2]⟩]⟩) v v := by
    apply acyclic_of_ltEdges
    intro a b hb
    rw [EdgeOf, depsOf] at hb
    rcases hf : findTask ⟨[⟨1, []⟩, ⟨2, [1]⟩, ⟨3, [1, 2]⟩]⟩ a with _ | t
    · rw [hf] at hb; simp at hb
    · rw [hf] at hb
      have hmem := List.mem_of_find?_eq_some hf
      have hid := List.find?_some hf
      simp only [beq_iff_eq] at hid
      subst hid
      fin_cases hmem <;> simp_all <;> omega
  refine ⟨by decide, by decide, ?_⟩
  exact c8_addDependency_cycle ⟨[⟨1, []⟩, ⟨2, [1]⟩, ⟨3, [1, 2]⟩]⟩ 1 3 hAcyc
    (by decide) (by decide)
    (Relation.TransGen.single
      (show (1 : Nat) ∈ depsOf ⟨[⟨1, []⟩, ⟨2, [1]⟩, ⟨3, [1, 2]⟩]⟩ 3 by decide))

end TaskMaster
